import Mathlib

/-!
Verification of the per-user session and query orchestration core of the
Mentra AI glasses assistant, against its specification.

Strings are modelled as `List Char`.  JavaScript whitespace (as used by
`trim` and the regex class `\s`) is modelled over the characters that can
actually occur in the queries and transcriptions handled here: tab, LF,
VT, FF, CR, space, NBSP, and the unicode line separators.  JavaScript
`String.prototype.includes` is modelled by `strIncludes`.
-/

namespace Mentra

abbrev Str := List Char

/-- Whitespace test matching the JS `\s` class on the characters used here. -/
def isWS (c : Char) : Bool :=
  [9, 10, 11, 12, 13, 32, 160, 0x2028, 0x2029, 0xfeff].contains c.toNat

/-- Model of JS `trimStart`. -/
def trimLeft (l : Str) : Str := l.dropWhile isWS

/-- Model of JS `trimEnd`. -/
def trimRight (l : Str) : Str := (l.reverse.dropWhile isWS).reverse

/-- Model of JS `trim`. -/
def trim (l : Str) : Str := trimLeft (trimRight l)

/-- Lower-casing a JS string (`toLowerCase`), ASCII fragment. -/
def toLowerStr (l : Str) : Str := l.map Char.toLower

/-- Model of JS `haystack.includes(needle)`: substring occurrence test. -/
def strIncludes (needle : Str) : Str → Bool
  | [] => needle.isEmpty
  | c :: rest => needle.isPrefixOf (c :: rest) || strIncludes needle rest

/-- The apostrophe character, written via its code point. -/
def apos : Char := Char.ofNat 39

/-!
## Location query classifier (location-query utility module)

Embedding of `LOCATION_KEYWORDS`, `WEATHER_KEYWORDS`, `isLocationQuery`
and `needsGeocoding` from the location-query detection source file.
-/

/-- `LOCATION_KEYWORDS` from the source, in order. -/
def LOCATION_KEYWORDS : List Str :=
  [ "where am i".toList,
    "my location".toList,
    "location".toList,
    "my address".toList,
    "current location".toList,
    "my current address".toList,
    "what city".toList,
    "which city".toList,
    "what town".toList,
    "what state".toList,
    "what country".toList,
    "what neighborhood".toList,
    "what area".toList,
    "what street".toList,
    "which street".toList,
    "nearby".toList,
    "near me".toList,
    "around here".toList,
    "close to me".toList,
    "closest".toList,
    "nearest".toList,
    "in this area".toList,
    "directions to".toList,
    "how to get to".toList,
    "navigate to".toList,
    "route to".toList,
    "how far".toList,
    "distance to".toList,
    "walking distance".toList,
    "driving distance".toList,
    "restaurants nearby".toList,
    "coffee near".toList,
    "food near".toList,
    "stores near".toList,
    "shops near".toList,
    "places near".toList,
    "things to do near".toList,
    "what".toList ++ [apos] ++ "s around".toList ]

/-- `WEATHER_KEYWORDS` from the source, in order. -/
def WEATHER_KEYWORDS : List Str :=
  [ "weather".toList,
    "temperature".toList,
    "forecast".toList,
    "rain".toList,
    "sunny".toList,
    "cloudy".toList,
    "snow".toList,
    "humidity".toList,
    "wind speed".toList ]

/-- `isLocationQuery(query)` from the source: lowercase the query, return
true when any location keyword or any weather keyword occurs in it. -/
def isLocationQuery (query : Str) : Bool :=
  let q := toLowerStr query
  if LOCATION_KEYWORDS.any fun kw => strIncludes kw q then
    true
  else if WEATHER_KEYWORDS.any fun kw => strIncludes kw q then
    true
  else
    false

/-- `needsGeocoding(query)` from the source: a weather query with neither
the substring space-i-n-space nor space-a-t-space returns false early;
otherwise the result is the location-keyword occurrence test. -/
def needsGeocoding (query : Str) : Bool :=
  let q := toLowerStr query
  if WEATHER_KEYWORDS.any fun kw => strIncludes kw q then
    if !(strIncludes " in ".toList q) && !(strIncludes " at ".toList q) then
      false
    else
      LOCATION_KEYWORDS.any fun kw => strIncludes kw q
  else
    LOCATION_KEYWORDS.any fun kw => strIncludes kw q

/-!
## Wake-word matcher (wake-word utility module)

The source pre-builds one regex per wake word: between two letters of a
word it inserts optional whitespace, and where the phrase has a space it
requires one or more whitespace characters; matching is case-insensitive
and leftmost.  Over these patterns — whitespace runs always followed by a
letter, and letters are never whitespace — greedy matching never
backtracks, so the regex is faithfully embedded by the committed-greedy
token matcher below.
-/

/-- A compiled element of a wake-word pattern: a literal letter, an
optional whitespace run, or a required (non-empty) whitespace run. -/
inductive Token where
  | ltr (c : Char)
  | optWs
  | reqWs
deriving DecidableEq, Repr

/-- `WAKE_WORDS` from the source. -/
def WAKE_WORDS : List Str := ["hey mentra".toList]

/-- The pattern-building loop of `WAKE_PATTERNS`: a space becomes a
required whitespace run; a letter becomes itself, followed by an optional
whitespace run when the next character exists and is not a space. -/
def buildPattern : Str → List Token
  | [] => []
  | c :: rest =>
    if c = ' ' then
      Token.reqWs :: buildPattern rest
    else
      Token.ltr c ::
        (match rest.head? with
         | some n => if n = ' ' then buildPattern rest else Token.optWs :: buildPattern rest
         | none => buildPattern rest)

/-- The single compiled wake pattern (for "hey mentra"). -/
def wakePattern : List Token := buildPattern ("hey mentra".toList)

/-- Length of the leading whitespace run. -/
def countWS : Str → Nat
  | [] => 0
  | c :: rest => if isWS c then countWS rest + 1 else 0

/-- Match a token pattern at the start of a string, returning the number
of characters consumed.  Whitespace runs are consumed greedily; since in
wake patterns every whitespace token is followed by a letter token and
letters are not whitespace, this equals the regex semantics. -/
def matchToks : List Token → Str → Option Nat
  | [], _ => some 0
  | Token.ltr _ :: _, [] => none
  | Token.ltr c :: ts, x :: xs =>
    if x = c then (matchToks ts xs).map (· + 1) else none
  | Token.optWs :: ts, s =>
    (matchToks ts (s.drop (countWS s))).map (· + countWS s)
  | Token.reqWs :: ts, s =>
    if countWS s = 0 then none
    else (matchToks ts (s.drop (countWS s))).map (· + countWS s)

/-- One step of the leftmost-match scan: succeed at the current index,
or shift a deeper result one position right. -/
def stepMatch (p : List Token) (s : Str) (rest : Option (Nat × Nat)) : Option (Nat × Nat) :=
  match matchToks p s with
  | some n => some (0, n)
  | none => rest.map fun r => (r.1 + 1, r.2)

/-- Leftmost match of a token pattern: the first index at which
`matchToks` succeeds, together with the match length (JS
`String.prototype.match` on a non-global, non-anchored regex). -/
def findMatchAux (p : List Token) : Str → Option (Nat × Nat)
  | [] => stepMatch p [] none
  | c :: xs => stepMatch p (c :: xs) (findMatchAux p xs)

/-- The character class of the post-match strip regex: comma, period or
whitespace. -/
def isPunctWS (c : Char) : Bool := c = ',' || c = '.' || isWS c

/-- The post-match processing of the matched tail in `detectWakeWord`:
`.trim()`, then strip the maximal leading run of comma/period/whitespace,
then `.trim()` again. -/
def postQuery (q : Str) : Str := trim ((trim q).dropWhile isPunctWS)

/-- Result record of `detectWakeWord`. -/
structure WakeWordResult where
  detected : Bool
  query : Str
  wakeWordUsed : Option Str
deriving DecidableEq, Repr

/-- `detectWakeWord(text)` from the source: lowercase and trim the text,
find the leftmost wake-pattern match in the trimmed text, and on success
slice the ORIGINAL text from matched index plus matched length (the index
is computed on the trimmed text), stripping leading punctuation from the
tail.  The source loops over the pattern list; with the single wake word
the loop is unrolled to the single pattern. -/
def detectWakeWord (text : Str) : WakeWordResult :=
  match findMatchAux wakePattern (trim (toLowerStr text)) with
  | some (idx, len) =>
    { detected := true
      query := postQuery (text.drop (idx + len))
      wakeWordUsed := some ("hey mentra".toList) }
  | none =>
    { detected := false, query := trim text, wakeWordUsed := none }

/-!
## Wake-word residue stripper

`WAKE_WORD_TRAILING_FRAGMENTS` matches, at the start of the text and
case-insensitively, any 1..5-character suffix of "mentra" followed by at
least one punctuation character from the class comma, period, bang,
question mark, semicolon, colon, followed by optional whitespace.  The
alternatives are tried in generation order; no two of them can be a
prefix of the same text (their first characters differ), so ordered
alternation with backtracking reduces to first-success. -/

/-- The generated trailing fragments of "mentra", in source order:
suffixes of length 1 to 5. -/
def wakeTrailingFragments : List Str :=
  ["a".toList, "ra".toList, "tra".toList, "ntra".toList, "entra".toList]

/-- The punctuation class of the residue regex. -/
def isResiduePunct (c : Char) : Bool :=
  c = ',' || c = '.' || c = '!' || c = '?' || c = ';' || c = ':'

/-- Length of the leading run of residue punctuation. -/
def countPunct : Str → Nat
  | [] => 0
  | c :: rest => if isResiduePunct c then countPunct rest + 1 else 0

/-- Case-insensitive prefix test for a lowercase fragment. -/
def isPrefixCI (f t : Str) : Bool := toLowerStr (t.take f.length) == f

/-- One alternative of the residue regex: the fragment as a
case-insensitive prefix, then one or more punctuation characters, then
optional whitespace; returns the total matched length. -/
def tryFragment (f t : Str) : Option Nat :=
  if isPrefixCI f t then
    let rest := t.drop f.length
    let k := countPunct rest
    if k = 0 then none else some (f.length + k + countWS (rest.drop k))
  else
    none

/-- Ordered alternation over fragment alternatives: first success wins. -/
def tryFragments : List Str → Str → Option Nat
  | [], _ => none
  | f :: fs, t =>
    match tryFragment f t with
    | some n => some n
    | none => tryFragments fs t

/-- The anchored residue regex: try each fragment alternative in order. -/
def residueMatchLen (t : Str) : Option Nat :=
  tryFragments wakeTrailingFragments t

/-- `stripWakeWordResidue(text)` from the source:
`text.replace(WAKE_WORD_TRAILING_FRAGMENTS, EMPTY).trim()` — remove the
anchored residue match when present, then trim in either case. -/
def stripWakeWordResidue (t : Str) : Str :=
  match residueMatchLen t with
  | some n => trim (t.drop n)
  | none => trim t

/-!
## Photo store (`PhotoManager`)

`StoredPhoto` carries the raw capture buffer (modelled as a byte list)
plus metadata.  `broadcastPhoto` serialises the photo into a payload
carrying the metadata AND two base64 renderings of the buffer, and pushes
it to every photo-stream subscriber.  `takePhoto` rotates the
current/previous context photos, stores the photo in the per-user
request-id map, and broadcasts.  The `previousPhotosToKeep` bound comes
from a config module that is not among the sources; it is kept as a
parameter `keep`.
-/

/-- `StoredPhoto` from the source; `timestamp` is epoch milliseconds. -/
structure StoredPhoto where
  requestId : Str
  buffer : List Nat
  timestamp : Nat
  userId : Str
  mimeType : Str
  filename : Str
  size : Nat
deriving DecidableEq, Repr

/-- The base64 alphabet. -/
def b64Alphabet : Str :=
  "ABCDEFGHIJKLMNOPQRSTUVWXYZabcdefghijklmnopqrstuvwxyz0123456789+/".toList

/-- Character of a 6-bit group. -/
def b64Char (n : Nat) : Char := b64Alphabet.getD n 'A'

/-- RFC 4648 base64 of a byte list: the model of
`Buffer.prototype.toString` with encoding base64. -/
def base64Encode : List Nat → Str
  | [] => []
  | [a] =>
    [b64Char (a / 4), b64Char (a % 4 * 16), '=', '=']
  | [a, b] =>
    [b64Char (a / 4), b64Char (a % 4 * 16 + b / 16), b64Char (b % 16 * 4), '=']
  | a :: b :: c :: rest =>
    b64Char (a / 4) :: b64Char (a % 4 * 16 + b / 16) ::
      b64Char (b % 16 * 4 + c / 64) :: b64Char (c % 64) :: base64Encode rest

/-- The JSON payload object built by `broadcastPhoto`: all metadata
fields plus the base64 body and a base64 data URL. -/
structure PhotoEvent where
  requestId : Str
  timestamp : Nat
  mimeType : Str
  filename : Str
  size : Nat
  userId : Str
  base64 : Str
  dataUrl : Str
deriving DecidableEq, Repr

/-- The payload `broadcastPhoto` serialises for a stored photo. -/
def photoEventPayload (p : StoredPhoto) : PhotoEvent :=
  { requestId := p.requestId
    timestamp := p.timestamp
    mimeType := p.mimeType
    filename := p.filename
    size := p.size
    userId := p.userId
    base64 := base64Encode p.buffer
    dataUrl := "data:".toList ++ p.mimeType ++ ";base64,".toList ++ base64Encode p.buffer }

/-- Association-list model of a JS `Map`: lookup of the entry for a key. -/
def lookupA {α : Type} : List (Str × α) → Str → Option α
  | [], _ => none
  | (k, v) :: rest, key => if k = key then some v else lookupA rest key

/-- JS `Map.set`: replace in place when the key exists, else append. -/
def setA {α : Type} (key : Str) (v : α) : List (Str × α) → List (Str × α)
  | [] => [(key, v)]
  | (k, w) :: rest => if k = key then (key, v) :: rest else (k, w) :: setA key v rest

/-- JS `Map.delete`: drop the entry for the key. -/
def deleteA {α : Type} (key : Str) (l : List (Str × α)) : List (Str × α) :=
  l.filter fun p => p.1 ≠ key

/-- Last `n` elements of a list: JS `Array.prototype.slice` with a
negative index `-n`. -/
def takeRight {α : Type} (n : Nat) (l : List α) : List α := l.drop (l.length - n)

/-- Per-user state of `PhotoManager`.  `sseClients` records, per photo
stream subscriber, the payloads written to it. -/
structure PMState where
  photos : List (Str × StoredPhoto)
  currentPhoto : Option StoredPhoto
  previousPhotos : List StoredPhoto
  sseClients : List (List PhotoEvent)
deriving DecidableEq, Repr

/-- A fresh `PhotoManager`. -/
def PMState.init : PMState :=
  { photos := [], currentPhoto := none, previousPhotos := [], sseClients := [] }

/-- `rotatePhotos(newPhoto)` from the source: push the current photo (if
any) onto `previousPhotos`, trim that list to the configured bound, and
make the new photo current. -/
def rotatePhotos (keep : Nat) (newPhoto : StoredPhoto) (st : PMState) : PMState :=
  match st.currentPhoto with
  | some cur =>
    let prev := st.previousPhotos ++ [cur]
    let prev := if keep < prev.length then takeRight keep prev else prev
    { st with previousPhotos := prev, currentPhoto := some newPhoto }
  | none => { st with currentPhoto := some newPhoto }

/-- `broadcastPhoto(photo)` from the source: write the serialised payload
to every photo-stream subscriber (writes modelled as succeeding). -/
def broadcastPhoto (photo : StoredPhoto) (st : PMState) : PMState :=
  { st with sseClients := st.sseClients.map fun recv => recv ++ [photoEventPayload photo] }

/-- The success path of `takePhoto()`: on a captured photo, rotate the
context photos, store the photo in the request-id map, and broadcast.
`none` models both hardware-session absence and capture failure, which
leave the state unchanged and return null. -/
def takePhoto (keep : Nat) (st : PMState) : Option StoredPhoto → PMState × Option StoredPhoto
  | none => (st, none)
  | some photo =>
    let st := rotatePhotos keep photo st
    let st := { st with photos := setA photo.requestId photo st.photos }
    let st := broadcastPhoto photo st
    (st, some photo)

/-- `getPhoto(requestId)` from the source. -/
def getPhoto (st : PMState) (requestId : Str) : Option StoredPhoto :=
  lookupA st.photos requestId

/-- A sequence of successful captures, folded through `takePhoto`. -/
def runCaptures (keep : Nat) (ps : List StoredPhoto) (st : PMState) : PMState :=
  ps.foldl (fun s p => (takePhoto keep s (some p)).1) st

/-!
## Chat event bus and chat SSE open protocol (chat API module)

`broadcastChatEvent` writes the serialised event to every connected chat
subscriber of the user, or appends it to the per-user pending FIFO when
no subscriber is connected.  `chatStream` registers a subscriber and
runs the open protocol: connected event, chat-history replay, pending
FIFO flush, immediate session heartbeat.  Timestamps (the `Date.now()` calls
and ISO strings of the source) are modelled as a `now : Nat` parameter;
SSE writes are modelled as succeeding.
-/

/-- A chat turn as used by the chat stream: query, response, optional
photo data URL, and a timestamp. -/
structure Turn where
  query : Str
  response : Str
  photoDataUrl : Option Str
  timestamp : Nat
deriving DecidableEq, Repr

/-- A history message entry; `id` models the template of `Date.now()`
and the running index. -/
structure Msg where
  id : Nat × Nat
  senderId : Str
  recipientId : Str
  content : Str
  timestamp : Nat
  image : Option Str
deriving DecidableEq, Repr

/-- The chat SSE event shapes relevant to the verified protocol. -/
inductive ChatEvent where
  | connected
  | history (messages : List Msg)
  | message (senderId : Str) (content : Str) (timestamp : Nat)
  | processing
  | idle
  | session_started (timestamp : Nat)
  | session_reconnecting (reason : Str) (timestamp : Nat)
  | session_ended (reason : Str) (timestamp : Nat)
  | session_heartbeat (active : Bool) (timestamp : Nat)
deriving DecidableEq, Repr

/-- A chat SSE subscriber together with the events written to it. -/
structure ChatClient where
  id : Nat
  received : List ChatEvent
deriving DecidableEq, Repr

/-- Per-user server-side session state as seen by the chat stream:
whether a hardware session is attached, and the chat history ring. -/
structure UserState where
  hasAppSession : Bool
  chatHistory : List Turn
deriving DecidableEq, Repr

/-- Process-wide state: the session registry map, the pending-removal
timer set, and the subscriber and pending-event maps of the chat module. -/
structure ServerState where
  users : List (Str × UserState)
  pendingRemovals : List Str
  chatClients : List (Str × List ChatClient)
  pendingEvents : List (Str × List ChatEvent)
deriving DecidableEq, Repr

/-- `broadcastChatEvent(userId, event)` from the source: with no
connected subscriber (missing or empty set) the event is queued on the
per-user pending FIFO; otherwise it is written to every subscriber. -/
def broadcastChatEvent (userId : Str) (event : ChatEvent) (st : ServerState) : ServerState :=
  if ((lookupA st.chatClients userId).getD []).isEmpty then
    { st with
        pendingEvents :=
          setA userId ((lookupA st.pendingEvents userId).getD [] ++ [event])
            st.pendingEvents }
  else
    { st with
        chatClients :=
          setA userId
            (((lookupA st.chatClients userId).getD []).map fun c =>
              { c with received := c.received ++ [event] })
            st.chatClients }

/-- `clearPendingEvents(userId)` from the source. -/
def clearPendingEvents (userId : Str) (st : ServerState) : ServerState :=
  { st with pendingEvents := deleteA userId st.pendingEvents }

/-- Modelled from the spec: `ChatHistoryManager.getRecentTurns(limit)` —
the chat-history class is not among the sources; per the spec the chat
history is a bounded ring and `recentTurns` returns the youngest-last
recent turns up to the limit. -/
def getRecentTurns (limit : Nat) (history : List Turn) : List Turn :=
  takeRight limit history

/-- The history expansion of `chatStream`: each recent turn becomes a
user message (whose image is the photo data URL of the turn) followed by an
agent message. -/
def historyMessages (userId : Str) (recipientId : Option Str) (now : Nat)
    (turns : List Turn) : List Msg :=
  turns.enum.flatMap fun p =>
    [ { id := (now, p.1 * 2)
        senderId := userId
        recipientId := recipientId.getD ("mentra-ai".toList)
        content := p.2.query
        timestamp := p.2.timestamp
        image := p.2.photoDataUrl },
      { id := (now, p.1 * 2 + 1)
        senderId := recipientId.getD ("mentra-ai".toList)
        recipientId := userId
        content := p.2.response
        timestamp := p.2.timestamp
        image := none } ]

/-- The open protocol of `chatStream` for a new subscriber: register the
subscriber; write `connected`; write a `history` event whenever the user
exists and has recent turns; then flush (and clear) the pending FIFO if
non-empty; then write an immediate `session_heartbeat`.  Returns the
events written to the new subscriber and the updated state. -/
def chatStreamOpen (userId : Str) (recipientId : Option Str) (now : Nat)
    (st : ServerState) : List ChatEvent × ServerState :=
  let newClient : ChatClient := { id := now, received := [] }
  let st :=
    { st with
        chatClients :=
          setA userId ((lookupA st.chatClients userId).getD [] ++ [newClient]) st.chatClients }
  let historyEvents :=
    match lookupA st.users userId with
    | some user =>
      let recentTurns := getRecentTurns 30 user.chatHistory
      if recentTurns.isEmpty then []
      else [ChatEvent.history (historyMessages userId recipientId now recentTurns)]
    | none => []
  let queued := (lookupA st.pendingEvents userId).getD []
  let st :=
    if queued.isEmpty then st
    else { st with pendingEvents := deleteA userId st.pendingEvents }
  let active :=
    match lookupA st.users userId with
    | some user => user.hasAppSession
    | none => false
  let written :=
    [ChatEvent.connected] ++ historyEvents ++ queued ++ [ChatEvent.session_heartbeat active now]
  (written, st)

/-!
## Session registry (`SessionManager`)
-/

/-- The reason string of the grace-period `session_ended` event. -/
def graceReason : Str := "grace period expired".toList

/-- `remove(userId)` from the source: clear any pending grace timer,
tear the user down, and delete the registry entry. -/
def removeUser (userId : Str) (st : ServerState) : ServerState :=
  { st with
      pendingRemovals := st.pendingRemovals.filter (fun k => k ≠ userId)
      users := deleteA userId st.users }

/-- `softRemove(userId)` from the source, up to timer scheduling: detach
the hardware session, replace any pending grace timer with a fresh one.
The timer callback itself is `graceTimerFire`. -/
def softRemove (userId : Str) (st : ServerState) : ServerState :=
  match lookupA st.users userId with
  | none => st
  | some user =>
    { st with
        users := setA userId { user with hasAppSession := false } st.users
        pendingRemovals := st.pendingRemovals.filter (fun k => k ≠ userId) ++ [userId] }

/-- The body of the grace-period timer scheduled by `softRemove`, in
source order: drop the timer entry, broadcast the `session_ended`
topic-chat event, clear the pending FIFO, then `remove(userId)`. -/
def graceTimerFire (userId : Str) (now : Nat) (st : ServerState) : ServerState :=
  let st := { st with pendingRemovals := st.pendingRemovals.filter (fun k => k ≠ userId) }
  let st := broadcastChatEvent userId (ChatEvent.session_ended graceReason now) st
  let st := clearPendingEvents userId st
  removeUser userId st

/-!
## Query pipeline (`QueryProcessor.processQuery`)

The pipeline is embedded as a pure function over an environment of
oracle results for its collaborators (hardware session and capabilities,
photo capture, agent call, TTS formatter), returning the response value
together with the ordered trace of side-effecting calls it makes.  The
trace action type includes a chat-broadcast constructor so that absence
of chat broadcasts is expressible.
-/

/-- One side-effecting call of the pipeline, in trace order. -/
inductive PQAction where
  | playSound
  | takePhotoCall (ok : Bool)
  | locationFetch
  | generate (ok : Bool)
  | showText (s : Str)
  | speak (s : Str)
  | addTurn (query response : Str) (hadPhoto : Bool)
  | broadcastChat (e : ChatEvent)
deriving DecidableEq, Repr

/-- Chat-broadcast test on a trace action. -/
def PQAction.isBroadcastChat : PQAction → Bool
  | PQAction.broadcastChat _ => true
  | _ => false

/-- Environment of `processQuery`: the hardware session with its
capability flags (each optional, defaulted as in the source), the
results of the photo capture and context lookup, the agent outcome, and
the TTS formatter. -/
structure PQEnv where
  hasSession : Bool
  capHasCamera : Option Bool
  capHasDisplay : Option Bool
  capHasSpeaker : Option Bool
  photoResult : Option StoredPhoto
  contextPhotos : List (List Nat)
  agentResult : Except Str Str
  ttsFormat : Str → Str

/-- Result of `processQuery`: the returned response, the trace of calls,
and whether the pipeline ran to completion (vs the no-session early
return). -/
structure PQResult where
  returnValue : Str
  actions : List PQAction
  completed : Bool

/-- The fixed apology substituted when the agent call throws. -/
def apologyResponse : Str :=
  "I".toList ++ [apos] ++ "m sorry, I had trouble processing that. Please try again.".toList

/-- The early return value when no hardware session is attached. -/
def notConnectedResponse : Str :=
  "I".toList ++ [apos] ++ "m not connected to your glasses right now.".toList

/-- Modelled from the spec: `LocationManager.queryNeedsLocation` — the
location-manager class is not among the sources; per the spec it
delegates to the classifier of the location-query module. -/
def queryNeedsLocation (q : Str) : Bool := isLocationQuery q

/-- The photo context assembled by steps 1 of the pipeline: with a
camera and a successful capture, the context photos; otherwise none. -/
def pipelinePhotos (env : PQEnv) : List (List Nat) :=
  if env.capHasCamera.getD false then
    match env.photoResult with
    | some _ => env.contextPhotos
    | none => []
  else []

/-- `processQuery(query)` from the source: no session returns the fixed
not-connected message with no side effects; otherwise play the
processing sound, capture a photo when the camera capability is present,
fetch location when the query needs it, call the agent (substituting the
fixed apology on error), format for TTS on speaker-only devices, output
to display and speakers, and record the turn in chat history.  No chat
event is broadcast anywhere in the function. -/
def processQuery (env : PQEnv) (query : Str) : PQResult :=
  if !env.hasSession then
    { returnValue := notConnectedResponse, actions := [], completed := false }
  else
    let hasCamera := env.capHasCamera.getD false
    let photos : List (List Nat) := pipelinePhotos env
    let photoActs := if hasCamera then [PQAction.takePhotoCall env.photoResult.isSome] else []
    let locActs := if queryNeedsLocation query then [PQAction.locationFetch] else []
    let response :=
      match env.agentResult with
      | Except.ok r => r
      | Except.error _ => apologyResponse
    let genActs := [PQAction.generate (match env.agentResult with
      | Except.ok _ => true
      | Except.error _ => false)]
    let hasSpeakers := env.capHasSpeaker.getD true
    let hasDisplay := env.capHasDisplay.getD false
    let formatted := if hasSpeakers && !hasDisplay then env.ttsFormat response else response
    let outActs :=
      (if hasDisplay then [PQAction.showText formatted] else []) ++
        (if hasSpeakers then [PQAction.speak formatted] else [])
    let hadPhoto := !photos.isEmpty
    { returnValue := response
      actions :=
        [PQAction.playSound] ++ photoActs ++ locActs ++ genActs ++ outActs ++
          [PQAction.addTurn query response hadPhoto]
      completed := true }

/-!
## Claim C4 — location classifier
-/

/-- C4, counterexample: the second half of the claim ("for every q
containing any keyword of the location keyword set, needsGeocoding(q) is
true") is false at the concrete query "weather near me", which contains
the location keyword "near me" yet gets `needsGeocoding = false` through
the weather early return. -/
theorem needsGeocoding_weather_near_me :
    (LOCATION_KEYWORDS.any fun kw =>
      strIncludes kw (toLowerStr ("weather near me".toList))) = true ∧
    needsGeocoding ("weather near me".toList) = false := by
  decide

/-- C4, amended: a query containing a weather keyword and neither the
substring space-i-n-space nor space-a-t-space is a location query and
does not need geocoding; and a query containing a location keyword needs
geocoding PROVIDED it does not also take the weather early return (no
weather keyword, or one of the two prepositions present). -/
theorem location_classifier_geocoding :
    (∀ q : Str,
      (WEATHER_KEYWORDS.any fun kw => strIncludes kw (toLowerStr q)) = true →
      strIncludes (" in ".toList) (toLowerStr q) = false →
      strIncludes (" at ".toList) (toLowerStr q) = false →
      isLocationQuery q = true ∧ needsGeocoding q = false)
  ∧ (∀ q : Str,
      (LOCATION_KEYWORDS.any fun kw => strIncludes kw (toLowerStr q)) = true →
      ((WEATHER_KEYWORDS.any fun kw => strIncludes kw (toLowerStr q)) = false ∨
        strIncludes (" in ".toList) (toLowerStr q) = true ∨
        strIncludes (" at ".toList) (toLowerStr q) = true) →
      needsGeocoding q = true) := by
  constructor
  · intro q hw hin hat
    constructor
    · unfold isLocationQuery
      cases h : (LOCATION_KEYWORDS.any fun kw => strIncludes kw (toLowerStr q)) <;>
        simp_all
    · unfold needsGeocoding
      simp_all
  · intro q hl hcond
    unfold needsGeocoding
    rcases hcond with hw | hin | hat
    · simp_all
    · cases h : (WEATHER_KEYWORDS.any fun kw => strIncludes kw (toLowerStr q)) <;>
        simp_all
    · cases h : (WEATHER_KEYWORDS.any fun kw => strIncludes kw (toLowerStr q)) <;>
        simp_all

/-- C4, witness: the amended theorem applied at "weather today" (weather
keyword, no prepositions) and "what city is this" (location keyword, no
weather keyword). -/
theorem location_classifier_geocoding_witness :
    (isLocationQuery ("weather today".toList) = true ∧
      needsGeocoding ("weather today".toList) = false) ∧
    needsGeocoding ("what city is this".toList) = true :=
  ⟨location_classifier_geocoding.1 _ (by decide) (by decide) (by decide),
   location_classifier_geocoding.2 _ (by decide) (Or.inl (by decide))⟩

/-!
## Claim C9 — residue stripper on fragment-free inputs
-/

/-- Statement helper: whether the first character of a string is in the
residue punctuation class. -/
def headIsResiduePunct (l : Str) : Bool :=
  match l.head? with
  | some c => isResiduePunct c
  | none => false

/-- A string with no leading residue punctuation has an empty leading
punctuation run. -/
theorem countPunct_eq_zero (l : Str) (h : headIsResiduePunct l = false) :
    countPunct l = 0 := by
  cases l with
  | nil => rfl
  | cons c t =>
    unfold headIsResiduePunct at h
    simp only [List.head?] at h
    unfold countPunct
    simp [h]

/-- A fragment alternative fails unless the fragment is a
case-insensitive prefix followed by a punctuation character. -/
theorem tryFragment_none (f t : Str)
    (h : ¬(isPrefixCI f t = true ∧ headIsResiduePunct (t.drop f.length) = true)) :
    tryFragment f t = none := by
  unfold tryFragment
  cases hp : isPrefixCI f t with
  | false => simp [hp]
  | true =>
    have hh : headIsResiduePunct (t.drop f.length) = false := by
      cases hq : headIsResiduePunct (t.drop f.length)
      · rfl
      · exact absurd ⟨hp, hq⟩ h
    simp [hp, countPunct_eq_zero _ hh]

/-- C9, counterexample: the claim ("the residue stripper is the identity
on every text not beginning with fragment-plus-punctuation") is false at
the concrete input space-h-i: no fragment matches, yet the stripper
trims the leading space. -/
theorem stripResidue_counterexample :
    (∀ f ∈ wakeTrailingFragments,
      ¬(isPrefixCI f (" hi".toList) = true ∧
        headIsResiduePunct ((" hi".toList).drop f.length) = true)) ∧
    stripWakeWordResidue (" hi".toList) ≠ " hi".toList := by
  decide

/-- C9, amended: on text that does not begin with a wake-word fragment
(a 1..5-character suffix of "mentra", case-insensitively) followed by at
least one punctuation character from the residue class, the residue
stripper acts as `trim` — in particular it is the identity on such text
when the text is already trimmed. -/
theorem stripResidue_no_fragment (t : Str)
    (h : ∀ f ∈ wakeTrailingFragments,
      ¬(isPrefixCI f t = true ∧ headIsResiduePunct (t.drop f.length) = true)) :
    stripWakeWordResidue t = trim t := by
  have h1 := tryFragment_none _ t (h _ (by decide : (['a'] : Str) ∈ wakeTrailingFragments))
  have h2 := tryFragment_none _ t
    (h _ (by decide : (['r', 'a'] : Str) ∈ wakeTrailingFragments))
  have h3 := tryFragment_none _ t
    (h _ (by decide : (['t', 'r', 'a'] : Str) ∈ wakeTrailingFragments))
  have h4 := tryFragment_none _ t
    (h _ (by decide : (['n', 't', 'r', 'a'] : Str) ∈ wakeTrailingFragments))
  have h5 := tryFragment_none _ t
    (h _ (by decide : (['e', 'n', 't', 'r', 'a'] : Str) ∈ wakeTrailingFragments))
  have hnone : residueMatchLen t = none := by
    unfold residueMatchLen wakeTrailingFragments
    simp [tryFragments, h1, h2, h3, h4, h5]
  unfold stripWakeWordResidue
  rw [hnone]

/-- C9, witness: the amended theorem at the concrete text "are you
there", which begins with the fragment "a" but with no punctuation after
it, so the stripper only trims. -/
theorem stripResidue_no_fragment_witness :
    stripWakeWordResidue ("are you there".toList) = trim ("are you there".toList) :=
  stripResidue_no_fragment _ (by decide)

/-!
## Matcher lemmas for claims C5 and C10
-/

/-- Whether a token pattern ends with a literal letter (true for every
wake pattern, which ends with the last letter of the phrase). -/
def endsLtr (p : List Token) : Bool :=
  match p.getLast? with
  | some (Token.ltr _) => true
  | _ => false

/-- A pattern ending in a letter never matches the empty string. -/
theorem matchToks_nil (p : List Token) (hp : endsLtr p = true) :
    matchToks p [] = none := by
  induction p with
  | nil => simp [endsLtr] at hp
  | cons t ts ih =>
    cases t with
    | ltr c => rfl
    | optWs =>
      cases ts with
      | nil => simp [endsLtr] at hp
      | cons t2 ts2 =>
        have hts : endsLtr (t2 :: ts2) = true := by
          unfold endsLtr at hp ⊢
          rwa [List.getLast?_cons_cons] at hp
        unfold matchToks
        simp [countWS, ih hts]
    | reqWs =>
      unfold matchToks
      simp [countWS]

/-- The leading-whitespace count never exceeds the length. -/
theorem countWS_le_length (s : Str) : countWS s ≤ s.length := by
  induction s with
  | nil => simp [countWS]
  | cons c t ih =>
    unfold countWS
    by_cases h : isWS c = true
    · simp [h]; omega
    · simp [h]

/-- Appending to a string whose whitespace prefix is proper does not
change the whitespace prefix. -/
theorem countWS_append (s r : Str) (h : countWS s < s.length) :
    countWS (s ++ r) = countWS s := by
  induction s with
  | nil => simp [countWS] at h
  | cons c t ih =>
    unfold countWS at h ⊢
    by_cases hc : isWS c = true
    · simp [hc] at h ⊢
      exact ih (by omega)
    · simp [hc]

/-- Dropping at most the first list of an append stays inside a split. -/
theorem drop_append_of_le (k : Nat) (s r : Str) (h : k ≤ s.length) :
    (s ++ r).drop k = s.drop k ++ r := by
  induction s generalizing k with
  | nil =>
    have : k = 0 := by simpa using h
    simp [this]
  | cons c t ih =>
    cases k with
    | zero => simp
    | succ k =>
      simp only [List.cons_append, List.drop_succ_cons]
      exact ih k (by simpa using h)

/-- Key matcher lemma: a full match of a letter-terminated pattern is
stable under appending arbitrary text — the greedy match consumes
exactly the same characters. -/
theorem matchToks_append_full (p : List Token) (hp : endsLtr p = true) :
    ∀ s r : Str, matchToks p s = some s.length →
      matchToks p (s ++ r) = some s.length := by
  induction p with
  | nil => simp [endsLtr] at hp
  | cons t ts ih =>
    intro s r h
    cases t with
    | ltr c =>
      cases s with
      | nil => simp [matchToks] at h
      | cons x xs =>
        by_cases hx : x = c
        · subst hx
          simp only [matchToks, if_pos rfl, ite_true, List.length_cons] at h
          simp only [List.cons_append, matchToks, if_pos rfl, ite_true, List.append_eq,
            List.length_cons]
          cases hmk : matchToks ts xs with
          | none => rw [hmk] at h; simp at h
          | some m =>
            rw [hmk] at h
            simp only [Option.map_some', Option.some.injEq] at h
            have hm : m = xs.length := by omega
            cases ts with
            | nil =>
              have h0 : matchToks ([] : List Token) xs = some 0 := rfl
              rw [h0] at hmk
              have hm0 : (0 : Nat) = m := by simpa using hmk
              have hxs : xs = [] := by
                rw [← List.length_eq_zero]; omega
              subst hxs
              simp [matchToks]
            | cons t2 ts2 =>
              have hts : endsLtr (t2 :: ts2) = true := by
                unfold endsLtr at hp ⊢
                rwa [List.getLast?_cons_cons] at hp
              have hmk2 : matchToks (t2 :: ts2) xs = some xs.length := by
                rw [hmk, hm]
              rw [ih hts xs r hmk2]
              simp
        · simp only [matchToks, if_neg hx] at h
          exact absurd h (by simp)
    | optWs =>
      cases ts with
      | nil => simp [endsLtr] at hp
      | cons t2 ts2 =>
        have hts : endsLtr (t2 :: ts2) = true := by
          unfold endsLtr at hp ⊢
          rwa [List.getLast?_cons_cons] at hp
        simp only [matchToks] at h ⊢
        cases hmk : matchToks (t2 :: ts2) (s.drop (countWS s)) with
        | none => rw [hmk] at h; simp at h
        | some m =>
          rw [hmk] at h
          simp only [Option.map_some', Option.some.injEq] at h
          have hkle : countWS s ≤ s.length := countWS_le_length s
          have hne : s.drop (countWS s) ≠ [] := by
            intro hdn
            rw [hdn, matchToks_nil _ hts] at hmk
            exact Option.noConfusion hmk
          have hklt : countWS s < s.length := by
            have := List.length_pos_of_ne_nil hne
            rw [List.length_drop] at this
            omega
          rw [countWS_append s r hklt, drop_append_of_le _ s r hkle]
          have hmk2 : matchToks (t2 :: ts2) (s.drop (countWS s)) =
              some (s.drop (countWS s)).length := by
            rw [hmk]
            congr 1
            rw [List.length_drop]
            omega
          rw [ih hts _ r hmk2]
          simp only [Option.map_some', Option.some.injEq, List.length_drop]
          omega
    | reqWs =>
      cases ts with
      | nil => simp [endsLtr] at hp
      | cons t2 ts2 =>
        have hts : endsLtr (t2 :: ts2) = true := by
          unfold endsLtr at hp ⊢
          rwa [List.getLast?_cons_cons] at hp
        simp only [matchToks] at h ⊢
        by_cases hk0 : countWS s = 0
        · rw [if_pos hk0] at h; simp at h
        · rw [if_neg hk0] at h
          cases hmk : matchToks (t2 :: ts2) (s.drop (countWS s)) with
          | none => rw [hmk] at h; simp at h
          | some m =>
            rw [hmk] at h
            simp only [Option.map_some', Option.some.injEq] at h
            have hkle : countWS s ≤ s.length := countWS_le_length s
            have hne : s.drop (countWS s) ≠ [] := by
              intro hdn
              rw [hdn, matchToks_nil _ hts] at hmk
              exact Option.noConfusion hmk
            have hklt : countWS s < s.length := by
              have := List.length_pos_of_ne_nil hne
              rw [List.length_drop] at this
              omega
            rw [countWS_append s r hklt, if_neg hk0, drop_append_of_le _ s r hkle]
            have hmk2 : matchToks (t2 :: ts2) (s.drop (countWS s)) =
                some (s.drop (countWS s)).length := by
              rw [hmk]
              congr 1
              rw [List.length_drop]
              omega
            rw [ih hts _ r hmk2]
            simp only [Option.map_some', Option.some.injEq, List.length_drop]
            omega

/-- Leftmost match at index zero when the pattern matches at the start. -/
theorem stepMatch_some (p : List Token) (s : Str) (rest : Option (Nat × Nat)) (n : Nat)
    (h : matchToks p s = some n) : stepMatch p s rest = some (0, n) := by
  unfold stepMatch
  rw [h]

theorem findMatchAux_zero (p : List Token) (s : Str) (n : Nat)
    (h : matchToks p s = some n) : findMatchAux p s = some (0, n) := by
  cases s with
  | nil => exact stepMatch_some p [] none n h
  | cons c xs => exact stepMatch_some p (c :: xs) _ n h

/-!
Trim lemmas.
-/

/-- Whitespace characters are in the punctuation-or-whitespace class. -/
theorem isPunctWS_of_isWS (c : Char) (h : isWS c = true) : isPunctWS c = true := by
  unfold isPunctWS
  rw [h]
  simp

/-- Dropping a weaker predicate after a stronger one is a no-op. -/
theorem dropWhile_dropWhile (p q : Char → Bool) (hpq : ∀ c, p c = true → q c = true)
    (l : Str) : (l.dropWhile q).dropWhile p = l.dropWhile q := by
  induction l with
  | nil => rfl
  | cons c t ih =>
    rw [List.dropWhile_cons]
    by_cases hq : q c = true
    · rw [if_pos hq]; exact ih
    · rw [if_neg hq, List.dropWhile_cons, if_neg ?_]
      intro hp
      exact hq (hpq c hp)

/-- The head surviving a `dropWhile` fails the predicate. -/
theorem head?_dropWhile (p : Char → Bool) (l : Str) (c : Char)
    (h : (l.dropWhile p).head? = some c) : p c = false := by
  induction l with
  | nil => simp [List.dropWhile] at h
  | cons x t ih =>
    rw [List.dropWhile_cons] at h
    by_cases hx : p x = true
    · rw [if_pos hx] at h; exact ih h
    · rw [if_neg hx] at h
      simp at h
      rw [← h]
      simpa using hx

/-- A list whose elements all satisfy the predicate drops to nil. -/
theorem dropWhile_eq_nil (p : Char → Bool) (l : Str) (h : ∀ c ∈ l, p c = true) :
    l.dropWhile p = [] := by
  induction l with
  | nil => rfl
  | cons c t ih =>
    rw [List.dropWhile_cons, if_pos (h c (by simp))]
    exact ih fun d hd => h d (by simp [hd])

/-- A list containing an element failing the predicate does not drop to
nil. -/
theorem dropWhile_ne_nil (p : Char → Bool) (l : Str) (h : ∃ c ∈ l, p c = false) :
    l.dropWhile p ≠ [] := by
  induction l with
  | nil => simp at h
  | cons c t ih =>
    rw [List.dropWhile_cons]
    by_cases hc : p c = true
    · rw [if_pos hc]
      refine ih ?_
      obtain ⟨d, hd, hdp⟩ := h
      rcases List.mem_cons.mp hd with rfl | hdt
      · rw [hc] at hdp; cases hdp
      · exact ⟨d, hdt, hdp⟩
    · rw [if_neg hc]; simp

/-- `dropWhile` over an append when the first part does not vanish. -/
theorem dropWhile_append_left (p : Char → Bool) (l₁ l₂ : Str)
    (h : l₁.dropWhile p ≠ []) :
    (l₁ ++ l₂).dropWhile p = l₁.dropWhile p ++ l₂ := by
  induction l₁ with
  | nil => exact absurd rfl h
  | cons c t ih =>
    rw [List.cons_append, List.dropWhile_cons, List.dropWhile_cons]
    by_cases hc : p c = true
    · rw [if_pos hc, if_pos hc]
      rw [List.dropWhile_cons, if_pos hc] at h
      exact ih h
    · rw [if_neg hc, if_neg hc, List.cons_append]

/-- `dropWhile` over an append when the first part vanishes. -/
theorem dropWhile_append_nil (p : Char → Bool) (l₁ l₂ : Str)
    (h : l₁.dropWhile p = []) :
    (l₁ ++ l₂).dropWhile p = l₂.dropWhile p := by
  induction l₁ with
  | nil => rfl
  | cons c t ih =>
    rw [List.dropWhile_cons] at h
    by_cases hc : p c = true
    · rw [if_pos hc] at h
      rw [List.cons_append, List.dropWhile_cons, if_pos hc]
      exact ih h
    · rw [if_neg hc] at h
      cases h

/-- `trimEnd` of an append whose second part has a non-whitespace
character trims only inside the second part. -/
theorem trimRight_append (A B : Str) (h : ∃ c ∈ B, isWS c = false) :
    trimRight (A ++ B) = A ++ trimRight B := by
  unfold trimRight
  rw [List.reverse_append]
  have hne : B.reverse.dropWhile isWS ≠ [] := by
    refine dropWhile_ne_nil _ _ ?_
    obtain ⟨c, hc, hcw⟩ := h
    exact ⟨c, List.mem_reverse.mpr hc, hcw⟩
  rw [dropWhile_append_left _ _ _ hne, List.reverse_append, List.reverse_reverse]

/-- `trimEnd` of an append whose second part is all whitespace discards
the second part. -/
theorem trimRight_append_ws (A B : Str) (h : ∀ c ∈ B, isWS c = true) :
    trimRight (A ++ B) = trimRight A := by
  unfold trimRight
  rw [List.reverse_append]
  rw [dropWhile_append_nil _ _ _ (dropWhile_eq_nil _ _ fun c hc =>
    h c (List.mem_reverse.mp hc))]

/-- The last character surviving `trimEnd` is not whitespace. -/
theorem getLast?_trimRight (Q : Str) (c : Char)
    (h : (trimRight Q).getLast? = some c) : isWS c = false := by
  unfold trimRight at h
  rw [List.getLast?_reverse] at h
  exact head?_dropWhile _ _ _ h

/-- A list whose last character is not whitespace is `trimEnd`-fixed. -/
theorem trimRight_eq_self (Z : Str)
    (h : ∀ c, Z.getLast? = some c → isWS c = false) : trimRight Z = Z := by
  unfold trimRight
  cases hz : Z.reverse with
  | nil =>
    have : Z = [] := List.reverse_eq_nil_iff.mp hz
    simp [this]
  | cons c t =>
    have hc : Z.getLast? = some c := by
      rw [← List.head?_reverse, hz]
      rfl
    have hcw : isWS c = false := h c hc
    calc ((c :: t).dropWhile isWS).reverse
        = (c :: t).reverse := by rw [List.dropWhile_cons, if_neg (by simp [hcw])]
      _ = Z.reverse.reverse := by rw [hz]
      _ = Z := List.reverse_reverse Z

/-- A nonempty `dropWhile` keeps the last element of its input. -/
theorem getLast?_dropWhile (p : Char → Bool) (l : Str)
    (h : l.dropWhile p ≠ []) : (l.dropWhile p).getLast? = l.getLast? := by
  obtain ⟨A, hA⟩ := List.dropWhile_suffix (l := l) p
  conv_rhs => rw [← hA]
  rw [List.getLast?_append_of_ne_nil _ h]

/-- The post-match processing of a tail of the form comma, space, Q:
the comma and space are stripped, and of Q the leading
comma/period/whitespace run and the trailing whitespace go. -/
theorem postQuery_comma_space (Q : Str) :
    postQuery (',' :: ' ' :: Q) = (trimRight Q).dropWhile isPunctWS := by
  by_cases hq : ∃ c ∈ Q, isWS c = false
  · have h1 : trimRight (',' :: ' ' :: Q) = ',' :: ' ' :: trimRight Q :=
      trimRight_append [',', ' '] Q hq
    have h2 : trim (',' :: ' ' :: Q) = ',' :: ' ' :: trimRight Q := by
      unfold trim trimLeft
      rw [h1, List.dropWhile_cons, if_neg (by decide)]
    have h3 : (trim (',' :: ' ' :: Q)).dropWhile isPunctWS =
        (trimRight Q).dropWhile isPunctWS := by
      rw [h2, List.dropWhile_cons, if_pos (by decide), List.dropWhile_cons,
        if_pos (by decide)]
    have h4 : trimRight ((trimRight Q).dropWhile isPunctWS) =
        (trimRight Q).dropWhile isPunctWS := by
      refine trimRight_eq_self _ ?_
      intro c hc
      have hne : (trimRight Q).dropWhile isPunctWS ≠ [] := by
        intro hnil
        rw [hnil] at hc
        cases hc
      rw [getLast?_dropWhile _ _ hne] at hc
      exact getLast?_trimRight Q c hc
    have h5 : trimLeft ((trimRight Q).dropWhile isPunctWS) =
        (trimRight Q).dropWhile isPunctWS :=
      dropWhile_dropWhile isWS isPunctWS isPunctWS_of_isWS (trimRight Q)
    unfold postQuery
    rw [h3]
    unfold trim
    rw [h4, h5]
  · have hall : ∀ c ∈ Q, isWS c = true := by
      intro c hc
      cases h : isWS c with
      | false => exact absurd ⟨c, hc, h⟩ hq
      | true => rfl
    have hallc : ∀ c ∈ (' ' :: Q), isWS c = true := by
      intro c hc
      rcases List.mem_cons.mp hc with rfl | hct
      · decide
      · exact hall c hct
    have h1 : trimRight (',' :: ' ' :: Q) = [','] := by
      have := trimRight_append_ws [','] (' ' :: Q) hallc
      simpa using this
    have h2 : trimRight Q = [] := by
      unfold trimRight
      rw [dropWhile_eq_nil _ _ fun c hc => hall c (List.mem_reverse.mp hc)]
      rfl
    unfold postQuery trim trimLeft
    rw [h1, h2]
    decide

/-- Leading whitespace padding is invisible to `trim`. -/
theorem trim_replicate_space (n : Nat) (X : Str) :
    trim (List.replicate n ' ' ++ X) = trim X := by
  have hpadws : ∀ c ∈ List.replicate n ' ', isWS c = true := by
    intro c hc
    rw [List.eq_of_mem_replicate hc]
    decide
  by_cases hx : ∃ c ∈ X, isWS c = false
  · unfold trim trimLeft
    rw [trimRight_append _ _ hx,
      dropWhile_append_nil _ _ _ (dropWhile_eq_nil _ _ hpadws)]
  · have hall : ∀ c ∈ X, isWS c = true := by
      intro c hc
      cases h : isWS c with
      | false => exact absurd ⟨c, hc, h⟩ hx
      | true => rfl
    have h2 : trimRight X = [] := by
      unfold trimRight
      rw [dropWhile_eq_nil _ _ fun c hc => hall c (List.mem_reverse.mp hc)]
      rfl
    have h1 : trimRight (List.replicate n ' ' ++ X) = [] := by
      rw [trimRight_append_ws _ _ hall]
      unfold trimRight
      rw [List.reverse_replicate, dropWhile_eq_nil _ _ hpadws]
      rfl
    unfold trim
    rw [h1, h2]

/-!
## Claim C5 — wake-phrase variants followed by comma, space, query
-/

/-- C5, counterexample: the claim says the returned query equals Q after
stripping leading comma/period/whitespace only; at the wake variant
"hey mentra" and Q = "hi " (trailing space) the returned query is "hi",
with the trailing space also removed. -/
theorem detectWakeWord_trailing_ws_counterexample :
    matchToks wakePattern (toLowerStr ("hey mentra".toList)) =
      some ("hey mentra".toList).length ∧
    (detectWakeWord ("hey mentra".toList ++ ',' :: ' ' :: "hi ".toList)).query ≠
      ("hi ".toList).dropWhile isPunctWS ∧
    (detectWakeWord ("hey mentra".toList ++ ',' :: ' ' :: "hi ".toList)).query =
      "hi".toList := by
  decide

/-- C5, amended: for every whitespace-and-case variant W of the wake
phrase (any string the wake pattern matches in full, e.g. "hey mentr a",
"Hey  Mentra") and every query Q, detection on W followed by comma,
space, Q succeeds, and the returned query is Q with the trailing
whitespace removed and the leading comma/period/whitespace run
stripped. -/
theorem detectWakeWord_variant (W Q : Str)
    (hW : matchToks wakePattern (toLowerStr W) = some W.length) :
    (detectWakeWord (W ++ ',' :: ' ' :: Q)).detected = true ∧
    (detectWakeWord (W ++ ',' :: ' ' :: Q)).query =
      (trimRight Q).dropWhile isPunctWS := by
  obtain ⟨tl, htl⟩ : ∃ tl, toLowerStr W = 'h' :: tl := by
    cases hlw : toLowerStr W with
    | nil =>
      rw [hlw] at hW
      rw [show wakePattern = Token.ltr 'h' :: wakePattern.tail from by decide] at hW
      simp [matchToks] at hW
    | cons x xs =>
      rw [hlw] at hW
      rw [show wakePattern = Token.ltr 'h' :: wakePattern.tail from by decide] at hW
      by_cases hx : x = 'h'
      · exact ⟨xs, by rw [hx]⟩
      · simp only [matchToks, if_neg hx] at hW
        cases hW
  have hlow : toLowerStr (W ++ ',' :: ' ' :: Q) =
      toLowerStr W ++ ',' :: ' ' :: toLowerStr Q := by
    unfold toLowerStr
    rw [List.map_append, List.map_cons, List.map_cons]
    rfl
  have hRdef : trim (toLowerStr (W ++ ',' :: ' ' :: Q)) =
      toLowerStr W ++ trimRight (',' :: ' ' :: toLowerStr Q) := by
    rw [hlow]
    have hex : ∃ c ∈ (',' :: ' ' :: toLowerStr Q), isWS c = false :=
      ⟨',', by simp, by decide⟩
    unfold trim
    rw [trimRight_append _ _ hex]
    unfold trimLeft
    rw [htl, List.cons_append, List.dropWhile_cons, if_neg (by decide),
      ← List.cons_append, ← htl]
  have hfull : matchToks wakePattern (trim (toLowerStr (W ++ ',' :: ' ' :: Q))) =
      some W.length := by
    rw [hRdef]
    have hWlen : matchToks wakePattern (toLowerStr W) = some (toLowerStr W).length := by
      rw [hW]
      congr 1
      unfold toLowerStr
      rw [List.length_map]
    have hap := matchToks_append_full wakePattern (by decide) (toLowerStr W)
      (trimRight (',' :: ' ' :: toLowerStr Q)) hWlen
    rw [hap]
    congr 1
    unfold toLowerStr
    rw [List.length_map]
  have hdet : detectWakeWord (W ++ ',' :: ' ' :: Q) =
      { detected := true
        query := postQuery ((W ++ ',' :: ' ' :: Q).drop (0 + W.length))
        wakeWordUsed := some ("hey mentra".toList) } := by
    unfold detectWakeWord
    rw [findMatchAux_zero _ _ _ hfull]
  rw [hdet]
  refine ⟨rfl, ?_⟩
  show postQuery ((W ++ ',' :: ' ' :: Q).drop (0 + W.length)) = _
  rw [Nat.zero_add, List.drop_left]
  exact postQuery_comma_space Q

/-- C5, witness: the amended theorem applied at the split-word variant
"hey mentr a" and the query "what time is it". -/
theorem detectWakeWord_variant_witness :
    (detectWakeWord ("hey mentr a".toList ++ ',' :: ' ' :: "what time is it".toList)).detected
      = true ∧
    (detectWakeWord ("hey mentr a".toList ++ ',' :: ' ' :: "what time is it".toList)).query
      = "what time is it".toList := by
  have h := detectWakeWord_variant ("hey mentr a".toList) ("what time is it".toList)
    (by decide)
  exact ⟨h.1, h.2.trans (by decide)⟩

/-!
## Claim C10 — leading whitespace shifts the sliced query
-/

/-- Dropping past the first list of an append. -/
theorem drop_append_sub (A t : Str) (k : Nat) (h : A.length ≤ k) :
    (A ++ t).drop k = t.drop (k - A.length) := by
  induction A generalizing k with
  | nil => simp
  | cons c A ih =>
    cases k with
    | zero => simp at h
    | succ k =>
      simp only [List.cons_append, List.drop_succ_cons, List.length_cons,
        Nat.succ_sub_succ]
      exact ih k (by simpa using h)

/-- C10: the wake-word match index is computed on the trimmed lowercase
text while the tail is sliced from the untrimmed original, so n
characters of leading whitespace shift the slice n characters left —
the returned query is computed from the slice starting n characters
before the end of the matched wake-phrase region.  In particular, at
the concrete text two-spaces-then-"hey mentra what time is it" the
query keeps the trailing "ra" of "mentra", and detection is not
invariant under trimming the input. -/
theorem detectWakeWord_leading_ws :
    (∀ (n : Nat) (t : Str) (i l : Nat), 0 < n → n ≤ i + l →
      findMatchAux wakePattern (trim (toLowerStr t)) = some (i, l) →
      (detectWakeWord (List.replicate n ' ' ++ t)).query =
        postQuery (t.drop (i + l - n)) ∧
      (detectWakeWord t).query = postQuery (t.drop (i + l)))
    ∧ (detectWakeWord ("  hey mentra what time is it".toList)).query =
        "ra what time is it".toList
    ∧ (detectWakeWord (trim ("  hey mentra what time is it".toList))).query =
        "what time is it".toList
    ∧ (detectWakeWord ("  hey mentra what time is it".toList)).query ≠
        (detectWakeWord (trim ("  hey mentra what time is it".toList))).query := by
  refine ⟨?_, by decide, by decide, by decide⟩
  intro n t i l hn hnil hmatch
  have hlowpad : toLowerStr (List.replicate n ' ' ++ t) =
      List.replicate n ' ' ++ toLowerStr t := by
    unfold toLowerStr
    rw [List.map_append, List.map_replicate,
      show Char.toLower ' ' = ' ' from by decide]
  have htrim : trim (toLowerStr (List.replicate n ' ' ++ t)) = trim (toLowerStr t) := by
    rw [hlowpad, trim_replicate_space]
  constructor
  · have hdet : detectWakeWord (List.replicate n ' ' ++ t) =
        { detected := true
          query := postQuery ((List.replicate n ' ' ++ t).drop (i + l))
          wakeWordUsed := some ("hey mentra".toList) } := by
      unfold detectWakeWord
      rw [htrim, hmatch]
    rw [hdet]
    show postQuery ((List.replicate n ' ' ++ t).drop (i + l)) = _
    rw [drop_append_sub _ _ _ (by simpa using hnil), List.length_replicate]
  · have hdet : detectWakeWord t =
        { detected := true
          query := postQuery (t.drop (i + l))
          wakeWordUsed := some ("hey mentra".toList) } := by
      unfold detectWakeWord
      rw [hmatch]
    rw [hdet]

/-- C10, witness: the shift theorem applied at two spaces of padding
before "hey mentra what time is it", matched at index 0 with length 10:
the padded slice starts at position 8 of the unpadded text. -/
theorem detectWakeWord_leading_ws_witness :
    (detectWakeWord (List.replicate 2 ' ' ++ "hey mentra what time is it".toList)).query =
      postQuery (("hey mentra what time is it".toList).drop (0 + 10 - 2)) ∧
    (detectWakeWord ("hey mentra what time is it".toList)).query =
      postQuery (("hey mentra what time is it".toList).drop (0 + 10)) :=
  detectWakeWord_leading_ws.1 2 ("hey mentra what time is it".toList) 0 10
    (by decide) (by decide) (by decide)

/-!
## Claim C3 — photo broadcast payload carries the raw bytes
-/

/-- Base64 output is empty exactly on empty input. -/
theorem base64Encode_eq_nil_iff (b : List Nat) : base64Encode b = [] ↔ b = [] := by
  cases b with
  | nil => simp [base64Encode]
  | cons a t =>
    cases t with
    | nil => simp [base64Encode]
    | cons b2 t2 =>
      cases t2 with
      | nil => simp [base64Encode]
      | cons c t3 => simp [base64Encode]

/-- C3, counterexample: the claim ("the topic-photo event contains only
metadata and never raw bytes") is false at a concrete two-byte photo:
the payload carries the full base64 body and a base64 data URL. -/
theorem broadcastPhoto_base64_counterexample :
    (photoEventPayload
      { requestId := "r1".toList, buffer := [104, 105], timestamp := 7,
        userId := "u".toList, mimeType := "image/jpeg".toList,
        filename := "photo.jpg".toList, size := 2 }).base64 = "aGk=".toList ∧
    (photoEventPayload
      { requestId := "r1".toList, buffer := [104, 105], timestamp := 7,
        userId := "u".toList, mimeType := "image/jpeg".toList,
        filename := "photo.jpg".toList, size := 2 }).base64 ≠ [] ∧
    (photoEventPayload
      { requestId := "r1".toList, buffer := [104, 105], timestamp := 7,
        userId := "u".toList, mimeType := "image/jpeg".toList,
        filename := "photo.jpg".toList, size := 2 }).dataUrl =
      "data:image/jpeg;base64,aGk=".toList := by
  decide

/-- C3, amended: for every captured photo the broadcast payload carries
the metadata fields AND a `base64` field equal to the base64 encoding of
the raw buffer AND a `dataUrl` embedding that encoding (non-empty
whenever the buffer is), and `broadcastPhoto` writes this payload to
every photo-stream subscriber. -/
theorem broadcastPhoto_payload (p : StoredPhoto) (st : PMState) :
    (photoEventPayload p).requestId = p.requestId ∧
    (photoEventPayload p).timestamp = p.timestamp ∧
    (photoEventPayload p).mimeType = p.mimeType ∧
    (photoEventPayload p).filename = p.filename ∧
    (photoEventPayload p).size = p.size ∧
    (photoEventPayload p).userId = p.userId ∧
    (photoEventPayload p).base64 = base64Encode p.buffer ∧
    (photoEventPayload p).dataUrl =
      "data:".toList ++ p.mimeType ++ ";base64,".toList ++ base64Encode p.buffer ∧
    ((photoEventPayload p).base64 = [] ↔ p.buffer = []) ∧
    (broadcastPhoto p st).sseClients =
      st.sseClients.map fun recv => recv ++ [photoEventPayload p] :=
  ⟨rfl, rfl, rfl, rfl, rfl, rfl, rfl, rfl, base64Encode_eq_nil_iff p.buffer, rfl⟩

/-!
## Claim C6 — the request-id photo map is unbounded
-/

/-- Lookup after `Map.set` at the written key. -/
theorem lookupA_setA_self {α : Type} (l : List (Str × α)) (k : Str) (v : α) :
    lookupA (setA k v l) k = some v := by
  induction l with
  | nil => simp [setA, lookupA]
  | cons kv t ih =>
    unfold setA
    by_cases h : kv.1 = k
    · rw [if_pos h]
      simp [lookupA]
    · rw [if_neg h]
      unfold lookupA
      rw [if_neg h]
      exact ih

/-- Lookup after `Map.set` at another key. -/
theorem lookupA_setA_ne {α : Type} (l : List (Str × α)) (k k2 : Str) (v : α)
    (h : k ≠ k2) : lookupA (setA k v l) k2 = lookupA l k2 := by
  induction l with
  | nil => simp [setA, lookupA, h]
  | cons kv t ih =>
    unfold setA
    by_cases hk : kv.1 = k
    · rw [if_pos hk]
      unfold lookupA
      rw [if_neg h, if_neg (by rw [← hk] at h; exact h)]
    · rw [if_neg hk]
      unfold lookupA
      by_cases h2 : kv.1 = k2
      · rw [if_pos h2, if_pos h2]
      · rw [if_neg h2, if_neg h2]
        exact ih

/-- `rotatePhotos` and `broadcastPhoto` leave the request-id map
untouched; one successful capture sets exactly the key of the new
photo. -/
theorem takePhoto_photos (keep : Nat) (st : PMState) (p : StoredPhoto) :
    ((takePhoto keep st (some p)).1).photos = setA p.requestId p st.photos := by
  unfold takePhoto broadcastPhoto rotatePhotos
  cases st.currentPhoto <;> simp

/-- Captures of photos whose request ids avoid a key leave the lookup
at that key unchanged. -/
theorem getPhoto_runCaptures_other (ps : List StoredPhoto) (keep : Nat)
    (st : PMState) (k : Str) (h : ∀ q ∈ ps, q.requestId ≠ k) :
    getPhoto (runCaptures keep ps st) k = getPhoto st k := by
  induction ps generalizing st with
  | nil => rfl
  | cons q rest ih =>
    unfold runCaptures
    rw [List.foldl_cons]
    have hstep := ih ((takePhoto keep st (some q)).1) fun r hr => h r (by simp [hr])
    unfold runCaptures at hstep
    rw [hstep]
    unfold getPhoto
    rw [takePhoto_photos, lookupA_setA_ne _ _ _ _ (h q (by simp))]

/-- C6, amended: the request-id lookup map is NOT capped — after any
sequence of successful captures with pairwise-distinct request ids,
every captured photo is still retrievable through `getPhoto`. -/
theorem photoMap_unbounded (keep : Nat) (ps : List StoredPhoto) (p : StoredPhoto)
    (st : PMState) (hmem : p ∈ ps)
    (hnodup : (ps.map fun q => q.requestId).Nodup) :
    getPhoto (runCaptures keep ps st) p.requestId = some p := by
  induction ps generalizing st with
  | nil => cases hmem
  | cons q rest ih =>
    unfold runCaptures
    rw [List.foldl_cons]
    have hn := List.nodup_cons.mp (by simpa only [List.map_cons] using hnodup)
    rcases List.mem_cons.mp hmem with rfl | hrest
    · have hother : ∀ r ∈ rest, r.requestId ≠ p.requestId := by
        intro r hr heq
        exact hn.1 (heq ▸ List.mem_map_of_mem _ hr)
      have hoth := getPhoto_runCaptures_other rest keep ((takePhoto keep st (some p)).1)
        p.requestId hother
      unfold runCaptures at hoth
      rw [hoth]
      unfold getPhoto
      rw [takePhoto_photos, lookupA_setA_self]
    · have hstep := ih ((takePhoto keep st (some q)).1) hrest hn.2
      unfold runCaptures at hstep
      exact hstep

/-- A concrete photo with a given request id, empty buffer. -/
def mkPhoto (rid : Str) : StoredPhoto :=
  { requestId := rid, buffer := [], timestamp := 0, userId := "u".toList,
    mimeType := "image/jpeg".toList, filename := "p.jpg".toList, size := 0 }

/-- Nine concrete photos with distinct request ids. -/
def ninePhotos : List StoredPhoto :=
  (List.range 9).map fun idx => mkPhoto ['p', Char.ofNat (48 + idx)]

/-- C6, counterexample: the claim caps retrievable photos at 8; after 9
successful captures with distinct request ids, all 9 are retrievable
and the map holds 9 entries. -/
theorem photoMap_nine_counterexample :
    ((runCaptures 3 ninePhotos PMState.init).photos).length = 9 ∧
    ((ninePhotos.map fun q => q.requestId).all fun r =>
      (getPhoto (runCaptures 3 ninePhotos PMState.init) r).isSome) = true ∧
    ¬(((runCaptures 3 ninePhotos PMState.init).photos).length ≤ 8) := by
  decide

/-- C6, witness: the amended theorem at two concrete captures. -/
theorem photoMap_unbounded_witness :
    getPhoto (runCaptures 3 [mkPhoto "pa".toList, mkPhoto "pb".toList] PMState.init)
      (mkPhoto ("pa".toList)).requestId = some (mkPhoto ("pa".toList)) :=
  photoMap_unbounded 3 _ _ PMState.init (by decide) (by decide)

/-!
## Claim C7 — grace-period timer: broadcast, clear pending, remove
-/

/-- Lookup after `Map.delete` at the deleted key. -/
theorem lookupA_deleteA_self {α : Type} (l : List (Str × α)) (k : Str) :
    lookupA (deleteA k l) k = none := by
  induction l with
  | nil => rfl
  | cons kv t ih =>
    unfold deleteA
    rw [List.filter_cons]
    by_cases h : kv.1 = k
    · rw [if_neg (by simp [h])]
      exact ih
    · rw [if_pos (by simp [h])]
      unfold lookupA
      rw [if_neg h]
      exact ih

/-- A key never survives filtering itself out. -/
theorem not_mem_filter_self (k : Str) (l : List Str) :
    k ∉ l.filter fun x => x ≠ k := by
  intro h
  have := (List.mem_filter.mp h).2
  simp at this

/-- Chat broadcasts do not change the user registry, the timers, or
the subscriber sets of other users. -/
theorem broadcastChatEvent_users (userId : Str) (event : ChatEvent) (st : ServerState) :
    (broadcastChatEvent userId event st).users = st.users ∧
    (broadcastChatEvent userId event st).pendingRemovals = st.pendingRemovals := by
  unfold broadcastChatEvent
  split <;> exact ⟨rfl, rfl⟩

/-- On a user with a non-empty subscriber set, a chat broadcast appends
the event to every subscriber and leaves the pending FIFOs alone. -/
theorem broadcastChatEvent_connected (userId : Str) (event : ChatEvent)
    (st : ServerState) (cs : List ChatClient)
    (hcs : lookupA st.chatClients userId = some cs) (hne : cs ≠ []) :
    (broadcastChatEvent userId event st).chatClients =
      setA userId (cs.map fun c => { c with received := c.received ++ [event] })
        st.chatClients ∧
    (broadcastChatEvent userId event st).pendingEvents = st.pendingEvents := by
  have hget : (lookupA st.chatClients userId).getD [] = cs := by rw [hcs]; rfl
  have hemp : ((lookupA st.chatClients userId).getD []).isEmpty = false := by
    rw [hget]
    cases cs with
    | nil => exact absurd rfl hne
    | cons a t => rfl
  unfold broadcastChatEvent
  rw [hemp, if_neg (by decide), hget]
  exact ⟨rfl, rfl⟩

/-- C7: when the grace timer armed by `softRemove` fires, the registry
entry of the user is gone, the pending-event FIFO is gone (even though the
broadcast ran first and may have queued the `session_ended` event — the
clear runs after the broadcast), no pending-removal timer remains, and
every subscriber that was connected received the `session_ended` event
(the broadcast ran before the teardown). -/
theorem graceTimer_order (userId : Str) (now : Nat) (st : ServerState) :
    lookupA (graceTimerFire userId now st).users userId = none ∧
    lookupA (graceTimerFire userId now st).pendingEvents userId = none ∧
    userId ∉ (graceTimerFire userId now st).pendingRemovals ∧
    (∀ cs, lookupA st.chatClients userId = some cs → cs ≠ [] →
      lookupA (graceTimerFire userId now st).chatClients userId =
        some (cs.map fun c =>
          { c with received := c.received ++ [ChatEvent.session_ended graceReason now] })) := by
  refine ⟨?_, ?_, ?_, ?_⟩
  · show lookupA (deleteA userId _) userId = none
    exact lookupA_deleteA_self _ _
  · show lookupA (deleteA userId _) userId = none
    exact lookupA_deleteA_self _ _
  · show userId ∉ List.filter _ _
    exact not_mem_filter_self _ _
  · intro cs hcs hne
    show lookupA (broadcastChatEvent userId (ChatEvent.session_ended graceReason now)
      { st with pendingRemovals := st.pendingRemovals.filter fun k => k ≠ userId }).chatClients
        userId = _
    rw [(broadcastChatEvent_connected userId (ChatEvent.session_ended graceReason now)
      { st with pendingRemovals := st.pendingRemovals.filter fun k => k ≠ userId }
      cs hcs hne).1]
    exact lookupA_setA_self _ _ _

/-- C7, witness: the order theorem at a concrete state with one
connected subscriber, a queued event, and an armed timer. -/
theorem graceTimer_order_witness :
    lookupA (graceTimerFire ("u".toList) 5
      { users := [("u".toList, { hasAppSession := false, chatHistory := [] })],
        pendingRemovals := ["u".toList],
        chatClients := [("u".toList, [{ id := 1, received := [] }])],
        pendingEvents := [("u".toList, [ChatEvent.processing])] }).users ("u".toList) = none ∧
    lookupA (graceTimerFire ("u".toList) 5
      { users := [("u".toList, { hasAppSession := false, chatHistory := [] })],
        pendingRemovals := ["u".toList],
        chatClients := [("u".toList, [{ id := 1, received := [] }])],
        pendingEvents := [("u".toList, [ChatEvent.processing])] }).pendingEvents
      ("u".toList) = none ∧
    ("u".toList) ∉ (graceTimerFire ("u".toList) 5
      { users := [("u".toList, { hasAppSession := false, chatHistory := [] })],
        pendingRemovals := ["u".toList],
        chatClients := [("u".toList, [{ id := 1, received := [] }])],
        pendingEvents := [("u".toList, [ChatEvent.processing])] }).pendingRemovals ∧
    lookupA (graceTimerFire ("u".toList) 5
      { users := [("u".toList, { hasAppSession := false, chatHistory := [] })],
        pendingRemovals := ["u".toList],
        chatClients := [("u".toList, [{ id := 1, received := [] }])],
        pendingEvents := [("u".toList, [ChatEvent.processing])] }).chatClients
      ("u".toList) =
      some [{ id := 1, received := [ChatEvent.session_ended graceReason 5] }] := by
  have h := graceTimer_order ("u".toList) 5
    { users := [("u".toList, { hasAppSession := false, chatHistory := [] })],
      pendingRemovals := ["u".toList],
      chatClients := [("u".toList, [{ id := 1, received := [] }])],
      pendingEvents := [("u".toList, [ChatEvent.processing])] }
  exact ⟨h.1, h.2.1, h.2.2.1,
    (h.2.2.2 [{ id := 1, received := [] }] (by decide) (by decide)).trans (by decide)⟩

/-!
## Claim C1 — subscribe-time protocol: history replay and queue flush
-/

/-- Statement helper: history-event test. -/
def isHistoryEvent : ChatEvent → Bool
  | ChatEvent.history _ => true
  | _ => false

/-- C1: at a concrete state whose user has one stored turn AND a
non-empty pending FIFO, a single subscribe writes BOTH a history event
and the flushed queued event (and clears the FIFO) — pending-queue
flush and history replay are not mutually exclusive in the code, which
always replays history before flushing. -/
theorem chatStream_history_and_flush :
    ((chatStreamOpen ("u".toList) none 9
      { users := [("u".toList,
          { hasAppSession := true,
            chatHistory := [{ query := "what time is it".toList,
                              response := "It is noon.".toList,
                              photoDataUrl := none, timestamp := 3 }] })],
        pendingRemovals := [], chatClients := [],
        pendingEvents := [("u".toList, [ChatEvent.processing])] }).1.any
      isHistoryEvent) = true ∧
    ChatEvent.processing ∈ (chatStreamOpen ("u".toList) none 9
      { users := [("u".toList,
          { hasAppSession := true,
            chatHistory := [{ query := "what time is it".toList,
                              response := "It is noon.".toList,
                              photoDataUrl := none, timestamp := 3 }] })],
        pendingRemovals := [], chatClients := [],
        pendingEvents := [("u".toList, [ChatEvent.processing])] }).1 ∧
    lookupA ((chatStreamOpen ("u".toList) none 9
      { users := [("u".toList,
          { hasAppSession := true,
            chatHistory := [{ query := "what time is it".toList,
                              response := "It is noon.".toList,
                              photoDataUrl := none, timestamp := 3 }] })],
        pendingRemovals := [], chatClients := [],
        pendingEvents := [("u".toList, [ChatEvent.processing])] }).2).pendingEvents
      ("u".toList) = none := by
  decide

/-!
## Claim C2 — the pipeline broadcasts no chat events
-/

/-- C2: no run of `processQuery` ever broadcasts a topic-chat event: the
trace of side-effecting calls contains no chat-broadcast action — in
particular no `message(user)` event before the agent call and no
`message(agent)` event before `addTurn`. -/
theorem processQuery_no_chat_broadcast (env : PQEnv) (q : Str) :
    (processQuery env q).actions.filter PQAction.isBroadcastChat = [] := by
  unfold processQuery
  split
  · rfl
  · simp [List.filter_append, apply_ite (List.filter PQAction.isBroadcastChat),
      PQAction.isBroadcastChat]

/-!
## Claim C8 — agent failure substitutes the apology and still records
-/

/-- C8: with a live session, when the agent call throws, the pipeline
completes, returns the fixed apology string, and still records the turn
in chat history with the apology as the stored response. -/
theorem processQuery_agent_error (env : PQEnv) (q : Str) (e : Str)
    (hs : env.hasSession = true) (ha : env.agentResult = Except.error e) :
    (processQuery env q).returnValue = apologyResponse ∧
    (processQuery env q).completed = true ∧
    PQAction.addTurn q apologyResponse (!(pipelinePhotos env).isEmpty) ∈
      (processQuery env q).actions := by
  have hcond : (!env.hasSession) = false := by rw [hs]; rfl
  unfold processQuery
  rw [hcond, if_neg (by decide), ha]
  refine ⟨rfl, rfl, ?_⟩
  simp

/-- C8, witness: a concrete environment with a connected session and a
failing agent. -/
theorem processQuery_agent_error_witness :
    (processQuery
      { hasSession := true, capHasCamera := some false, capHasDisplay := some false,
        capHasSpeaker := some true, photoResult := none, contextPhotos := [],
        agentResult := Except.error ("timeout".toList), ttsFormat := fun s => s }
      ("what time is it".toList)).returnValue = apologyResponse ∧
    (processQuery
      { hasSession := true, capHasCamera := some false, capHasDisplay := some false,
        capHasSpeaker := some true, photoResult := none, contextPhotos := [],
        agentResult := Except.error ("timeout".toList), ttsFormat := fun s => s }
      ("what time is it".toList)).completed = true ∧
    PQAction.addTurn ("what time is it".toList) apologyResponse
      (!(pipelinePhotos
        { hasSession := true, capHasCamera := some false, capHasDisplay := some false,
          capHasSpeaker := some true, photoResult := none, contextPhotos := [],
          agentResult := Except.error ("timeout".toList), ttsFormat := fun s => s }).isEmpty) ∈
      (processQuery
        { hasSession := true, capHasCamera := some false, capHasDisplay := some false,
          capHasSpeaker := some true, photoResult := none, contextPhotos := [],
          agentResult := Except.error ("timeout".toList), ttsFormat := fun s => s }
        ("what time is it".toList)).actions :=
  processQuery_agent_error _ _ _ rfl rfl

end Mentra
